import Mathlib

set_option linter.unusedVariables false

/-! Shallow embedding of src/lib/tracker.js, the core of a BitTorrent tracker.
JavaScript numeric slots that can hold NaN (or null/undefined coerced through
arithmetic) are modelled as `Option Int` with `none` for NaN; query strings are
association lists of string pairs; `Math.random` draws are supplied by an
explicit choice oracle `ch : Nat → Nat` (the k-th draw over a pool of size n is
`ch k % n`). Loops that mutate an array while walking it are embedded with an
explicit fuel argument whose initial value provably dominates the iteration
count, so every definition is structurally recursive and executable. -/

abbrev JSNum := Option Int

def jsAdd : JSNum → JSNum → JSNum
  | some a, some b => some (a + b)
  | _, _ => none

def truthyStr : Option String → Bool
  | none => false
  | some s => !(s == "")

def truthyNum : JSNum → Bool
  | none => false
  | some v => !(v == 0)

def jsLtI : JSNum → Int → Bool
  | none, _ => false
  | some v, b => decide (v < b)

def jsGtI : JSNum → Int → Bool
  | none, _ => false
  | some v, b => decide (v > b)

def jsLeNat (n : Nat) : JSNum → Bool
  | none => false
  | some v => decide ((n : Int) ≤ v)

def digitsValAux : List Char → Option Nat → Option Nat
  | [], acc => acc
  | c :: rest, acc =>
    if c.isDigit then digitsValAux rest (some ((acc.getD 0) * 10 + (c.toNat - 48)))
    else acc

def jsParseIntS (s : String) : JSNum :=
  match s.toList with
  | '-' :: rest => (digitsValAux rest none).map (fun n => -(n : Int))
  | '+' :: rest => (digitsValAux rest none).map (fun n => (n : Int))
  | cs => (digitsValAux cs none).map (fun n => (n : Int))

def jsParseInt : Option String → JSNum
  | none => none
  | some s => jsParseIntS s

def decDigitsVal (cs : List Char) : Option Nat :=
  if cs ≠ [] ∧ cs.all Char.isDigit then
    some (cs.foldl (fun a c => a * 10 + (c.toNat - 48)) 0)
  else none

def jsToNumber (s : String) : JSNum :=
  match s.toList with
  | [] => some 0
  | '-' :: rest => (decDigitsVal rest).map (fun n => -(n : Int))
  | '+' :: rest => (decDigitsVal rest).map (fun n => (n : Int))
  | cs => (decDigitsVal cs).map (fun n => (n : Int))

def splitDotAux : List Char → List Char → List String
  | [], cur => [String.mk cur.reverse]
  | c :: rest, cur =>
    if c = '.' then String.mk cur.reverse :: splitDotAux rest []
    else splitDotAux rest (c :: cur)

def jsSplitDot (s : String) : List String := splitDotAux s.toList []

def toHexDigitChar (n : Nat) : Char :=
  if n < 10 then Char.ofNat (48 + n) else Char.ofNat (87 + n)

def hexCharVal (c : Char) : Option Nat :=
  if 48 ≤ c.toNat ∧ c.toNat ≤ 57 then some (c.toNat - 48)
  else if 97 ≤ c.toNat ∧ c.toNat ≤ 102 then some (c.toNat - 87)
  else if 65 ≤ c.toNat ∧ c.toNat ≤ 70 then some (c.toNat - 55)
  else none

def isHexChar (c : Char) : Bool := (hexCharVal c).isSome

def natToHexAux : Nat → Nat → List Char → List Char
  | 0, n, acc => toHexDigitChar (n % 16) :: acc
  | fuel + 1, n, acc =>
    if n < 16 then toHexDigitChar n :: acc
    else natToHexAux fuel (n / 16) (toHexDigitChar (n % 16) :: acc)

def natToHexChars (n : Nat) : List Char := natToHexAux n n []

def bufferFromHex : List Char → List Nat
  | c1 :: c2 :: rest =>
    match hexCharVal c1, hexCharVal c2 with
    | some a, some b => (16 * a + b) :: bufferFromHex rest
    | _, _ => []
  | _ => []

def strBytes (s : String) : List Nat := s.toList.map Char.toNat

inductive BVal where
  | int (i : Int)
  | str (s : String)
  | bytes (b : List Nat)
  | list (l : List BVal)
  | dict (d : List (String × BVal))

mutual

def bencodeB : BVal → List Nat
  | .int i => strBytes ("i" ++ toString i ++ "e")
  | .str s => strBytes (toString s.length ++ ":" ++ s)
  | .bytes b => strBytes (toString b.length ++ ":") ++ b
  | .list l => strBytes "l" ++ bencodeList l ++ strBytes "e"
  | .dict d => strBytes "d" ++ bencodeDict d ++ strBytes "e"

def bencodeList : List BVal → List Nat
  | [] => []
  | v :: vs => bencodeB v ++ bencodeList vs

def bencodeDict : List (String × BVal) → List Nat
  | [] => []
  | (k, v) :: kvs => strBytes (toString k.length ++ ":" ++ k) ++ bencodeB v ++ bencodeDict kvs

end

def errorBytes (msg : String) : List Nat := bencodeB (.dict [("error", .str msg)])

def PeerStatus.STARTED : Nat := 1

def PeerStatus.COMPLETED : Nat := 2

structure Peer where
  id : String
  ip : String
  port : JSNum
  status : Nat
  lastActive : Int
  left : JSNum
  uploaded : JSNum
  downloaded : JSNum
deriving DecidableEq

def Peer.new (id ip : String) (port : JSNum) (now : Int) : Peer :=
  { id := id, ip := ip, port := port, status := PeerStatus.STARTED,
    lastActive := now, left := none, uploaded := some 0, downloaded := some 0 }

def Peer.setCompleted (p : Peer) : Peer :=
  { p with left := some 0, status := PeerStatus.COMPLETED }

def Peer.updateUpDown (p : Peer) (up down l : JSNum) : Peer :=
  let p1 := { p with uploaded := jsAdd p.uploaded up,
                     downloaded := jsAdd p.downloaded down, left := l }
  if l = some 0 then p1.setCompleted else p1

structure Torrent where
  tid : String
  peers : List Peer
  name : Option String := none
deriving DecidableEq

def Torrent.addPeer (t : Torrent) (p : Peer) : Torrent :=
  { t with peers := t.peers ++ [p] }

def Torrent.getPeer (t : Torrent) (peerid : String) : Option Peer :=
  t.peers.find? (fun q => q.id == peerid)

def jsIndexOfAux (p : Peer) : List Peer → Int → Int
  | [], _ => -1
  | q :: rest, i => if q = p then i else jsIndexOfAux p rest (i + 1)

def jsIndexOf (l : List Peer) (p : Peer) : Int := jsIndexOfAux p l 0

def jsSpliceRemove1 (l : List Peer) (start : Int) : List Peer :=
  let len : Int := l.length
  let actual : Nat := if start < 0 then (max (len + start) 0).toNat else min start.toNat l.length
  l.take actual ++ l.drop (actual + 1)

def Torrent.rmPeer (t : Torrent) (p : Peer) : Torrent :=
  { t with peers := jsSpliceRemove1 t.peers (jsIndexOf t.peers p) }

def cleanLoopF (threshold now : Int) : Nat → Nat → List Peer → List Peer
  | 0, _, peers => peers
  | fuel + 1, i, peers =>
    if h : i < peers.length then
      let peer := peers.get ⟨i, h⟩
      if now - peer.lastActive ≥ threshold then
        cleanLoopF threshold now fuel (i + 1) (jsSpliceRemove1 peers (jsIndexOf peers peer))
      else
        cleanLoopF threshold now fuel (i + 1) peers
    else peers

structure Config where
  announceTime : Int
  peerCleanTime : Int
  trackerId : String

def Torrent.cleanPeers (cfg : Config) (now : Int) (t : Torrent) : Torrent :=
  { t with peers := cleanLoopF (cfg.peerCleanTime * 60) now t.peers.length 0 t.peers }

def excludedPeer (q : Peer) : Option Peer → Bool
  | none => false
  | some p => decide (q = p)

def Torrent.getSeeds (t : Torrent) (np : Option Peer) : List Peer :=
  t.peers.filter (fun q => decide (q.status = PeerStatus.COMPLETED) && !(excludedPeer q np))

def Torrent.getLeechers (t : Torrent) (np : Option Peer) : List Peer :=
  t.peers.filter (fun q => !(decide (q.status = PeerStatus.COMPLETED)) && !(excludedPeer q np))

def selectLoopF (ch : Nat → Nat) (nw : JSNum) : Nat → Nat → List Peer → List Peer → Nat × List Peer
  | 0, k, _, ret => (k, ret)
  | fuel + 1, k, pool, ret =>
    if h : 0 < pool.length ∧ jsLeNat ret.length nw = true then
      let i := ch k % pool.length
      selectLoopF ch nw fuel (k + 1) (pool.eraseIdx i) (ret ++ [pool.get ⟨i, Nat.mod_lt _ h.1⟩])
    else (k, ret)

def Torrent.getLeecherPeers (t : Torrent) (ch : Nat → Nat) (peer : Peer) (nw : JSNum) : List Peer :=
  let seeds := t.getSeeds (some peer)
  let s := selectLoopF ch nw seeds.length 0 seeds []
  let leeches := t.getLeechers (some peer)
  (selectLoopF ch nw leeches.length s.1 leeches s.2).2

inductive PeersField where
  | compactBytes (b : List Nat)
  | peerList (l : List BVal)

structure AnnounceResp where
  interval : Int
  trackerId : String
  complete : Nat
  incomplete : Nat
  peers : PeersField

inductive JSErr where
  | referenceError
  | typeError
deriving DecidableEq

def padOct (s : List Char) : List Char := if s.length = 1 then '0' :: s else s

def jsNumToHexChars : JSNum → List Char
  | none => ['N', 'a', 'N']
  | some v => if v < 0 then '-' :: natToHexChars v.natAbs else natToHexChars v.toNat

def octHexChars (part : Option String) : List Char := padOct (jsNumToHexChars (jsParseInt part))

def portHexChars (port : JSNum) : List Char :=
  let s := jsNumToHexChars port
  List.replicate (4 - s.length) '0' ++ s

def peerHexChars (q : Peer) : List Char :=
  (((List.range 4).map (fun j => octHexChars ((jsSplitDot q.ip)[j]?))).flatten) ++ portHexChars q.port

def Torrent.compactResponse (cfg : Config) (ch : Nat → Nat) (t : Torrent) (peer : Peer) (nw : JSNum) : AnnounceResp :=
  let rpeers := t.getLeecherPeers ch peer nw
  { interval := cfg.announceTime * 60, trackerId := cfg.trackerId,
    complete := (t.getSeeds none).length, incomplete := (t.getLeechers none).length,
    peers := .compactBytes (bufferFromHex ((rpeers.map peerHexChars).flatten)) }

def Torrent.uncompactResponse (cfg : Config) (ch : Nat → Nat) (t : Torrent) (peer : Peer) (nw : JSNum) : Except JSErr AnnounceResp :=
  let rpeers := t.getLeecherPeers ch peer nw
  -- The loop that builds the peers list reads the undeclared identifiers p and
  -- peers in its first iteration, so any non-empty selection throws.
  if rpeers.isEmpty then
    .ok { interval := cfg.announceTime * 60, trackerId := cfg.trackerId,
          complete := (t.getSeeds none).length, incomplete := (t.getLeechers none).length,
          peers := .peerList [] }
  else .error .referenceError

def peersFieldBVal : PeersField → BVal
  | .compactBytes b => .bytes b
  | .peerList l => .list l

def respBytes (r : AnnounceResp) : List Nat :=
  bencodeB (.dict [("interval", .int r.interval), ("tracker id", .str r.trackerId),
                   ("complete", .int r.complete), ("incomplete", .int r.incomplete),
                   ("peers", peersFieldBVal r.peers)])

structure Tracker where
  torrents : List Torrent

def Tracker.getTorrent (tr : Tracker) (infohash : String) : Option Torrent :=
  tr.torrents.find? (fun t => t.tid == infohash)

def scrapeEntry (t : Torrent) : List (String × BVal) :=
  [("complete", .int ((t.getSeeds none).length : Int)), ("downloaded", .int 0),
   ("incomplete", .int ((t.getLeechers none).length : Int))]

def normHashes : String ⊕ List String → List String
  | .inl s => [s]
  | .inr l => l

def scrapeLoop (tr : Tracker) : List String → List (String × BVal) → Except JSErr (List (String × BVal))
  | [], files => .ok files
  | hash :: rest, files =>
    match tr.getTorrent hash with
    | none =>
      -- tor is null here and the name check is not guarded by the null test,
      -- so reading tor.name throws a TypeError.
      .error .typeError
    | some tor =>
      let withEntry := files ++ [(hash, .dict (scrapeEntry tor))]
      let files2 :=
        if truthyStr tor.name then
          files ++ [(hash, .dict (scrapeEntry tor ++ [("name", .str (tor.name.getD ""))]))]
        else withEntry
      scrapeLoop tr rest files2

def Tracker.handleScrape (tr : Tracker) (info_hash : String ⊕ List String) : Except JSErr (List Nat) :=
  match scrapeLoop tr (normHashes info_hash) [] with
  | .ok files => .ok (bencodeB (.dict [("files", .dict files)]))
  | .error e => .error e

def qsGet (qs : List (String × String)) (k : String) : Option String :=
  (qs.find? (fun kv => kv.1 == k)).map (fun kv => kv.2)

def invalidPort (port : JSNum) : Bool := !(truthyNum port) || jsLtI port 0 || jsGtI port 65535

def Tracker.handleAnnounce (cfg : Config) (ch : Nat → Nat) (now : Int) (remoteAddress : String)
    (tr : Tracker) (qs : List (String × String)) : Tracker × Except JSErr (List Nat) :=
  let torHash := qsGet qs "info_hash"
  let peer_id := qsGet qs "peer_id"
  let port := jsParseInt (qsGet qs "port")
  let uploaded := jsParseInt (qsGet qs "uploaded")
  -- The source reads the misspelled query key downloade, not downloaded.
  let downloaded := jsParseInt (qsGet qs "downloade")
  let left := jsParseInt (qsGet qs "left")
  let ip0 := qsGet qs "ip"
  let compact := qsGet qs "compact"
  let ev := qsGet qs "event"
  let numwant : JSNum :=
    match qsGet qs "numwant" with
    | some s => if s == "" then some 30 else jsToNumber s
    | none => some 30
  if !(truthyStr torHash) then (tr, .ok (errorBytes "Malformed request; no info hash"))
  else if !(truthyStr peer_id) then (tr, .ok (errorBytes "Malformed request; no peer_id"))
  else if invalidPort port then (tr, .ok (errorBytes "Malformed request; Invalid port"))
  else
    let ip := match ip0 with
      | some s => if s == "" then remoteAddress else s
      | none => remoteAddress
    let hash := torHash.getD ""
    let pid := peer_id.getD ""
    let tpair : List Torrent × Nat :=
      match tr.torrents.findIdx? (fun t => t.tid == hash) with
      | some i => (tr.torrents, i)
      | none => (tr.torrents ++ [{ tid := hash, peers := [], name := none }], tr.torrents.length)
    let ts := tpair.1
    let tIdx := tpair.2
    let torrent := ts.getD tIdx { tid := hash, peers := [], name := none }
    let ppair : List Peer × Nat :=
      match torrent.peers.findIdx? (fun q => q.id == pid) with
      | some i => (torrent.peers, i)
      | none => (torrent.peers ++ [Peer.new pid ip port now], torrent.peers.length)
    let peers1 := ppair.1
    let pIdx := ppair.2
    let peerObj := peers1.getD pIdx (Peer.new pid ip port now)
    let torrent1 : Torrent := { torrent with peers := peers1 }
    let step : Torrent × Peer :=
      match ev with
      | some "stopped" => (torrent1.rmPeer peerObj, peerObj)
      | some "completed" =>
        let np := (peerObj.setCompleted).updateUpDown uploaded downloaded left
        ({ torrent1 with peers := peers1.set pIdx np }, np)
      | _ =>
        let np := peerObj.updateUpDown uploaded downloaded left
        ({ torrent1 with peers := peers1.set pIdx np }, np)
    let torrent2 := step.1
    let peer2 := step.2
    let tr2 : Tracker := { torrents := ts.set tIdx torrent2 }
    let resp : Except JSErr (List Nat) :=
      if compact == some "0" then
        match torrent2.uncompactResponse cfg ch peer2 numwant with
        | .ok r => .ok (respBytes r)
        | .error e => .error e
      else .ok (respBytes (torrent2.compactResponse cfg ch peer2 numwant))
    (tr2, resp)

def octetJS (q : Peer) (j : Nat) : JSNum := jsParseInt ((jsSplitDot q.ip)[j]?)

def validNetB (q : Peer) : Bool :=
  ((List.range 4).all (fun j =>
    match octetJS q j with
    | some v => decide (0 ≤ v) && decide (v ≤ 255)
    | none => false)) &&
  (match q.port with
   | some v => decide (0 ≤ v) && decide (v ≤ 65535)
   | none => false)

def peerSix (q : Peer) : List Nat :=
  ((List.range 4).map (fun j => ((octetJS q j).getD 0).toNat)) ++
  [((q.port.getD 0).toNat) / 256, ((q.port.getD 0).toNat) % 256]

def pS : Peer :=
  { id := "s", ip := "4.4.4.4", port := some 4, status := PeerStatus.COMPLETED,
    lastActive := 0, left := some 0, uploaded := some 0, downloaded := some 0 }

def torW : Torrent := { tid := "W", peers := [pS], name := none }

def respW : AnnounceResp :=
  { interval := 1200, trackerId := "No Idea", complete := 1, incomplete := 0,
    peers := .peerList [] }

def cfg0 : Config := { announceTime := 20, peerCleanTime := 40, trackerId := "No Idea" }

def ch0 : Nat → Nat := fun _ => 0

def pA : Peer :=
  { id := "a", ip := "1.1.1.1", port := some 1, status := PeerStatus.STARTED,
    lastActive := 0, left := none, uploaded := some 0, downloaded := some 0 }

def pB : Peer :=
  { id := "b", ip := "2.2.2.2", port := some 7001, status := PeerStatus.STARTED,
    lastActive := 0, left := some 5, uploaded := some 0, downloaded := some 0 }

def pC : Peer :=
  { id := "c", ip := "3.3.3.3", port := some 3, status := PeerStatus.STARTED,
    lastActive := 0, left := none, uploaded := some 0, downloaded := some 0 }

def torA : Torrent := { tid := "A", peers := [pA], name := none }

def torX : Torrent := { tid := "X", peers := [pB], name := none }

def qsCompleted100 : List (String × String) :=
  [("info_hash", "H"), ("peer_id", "a"), ("port", "6881"), ("left", "100"), ("event", "completed")]

def qsNoNumbers : List (String × String) :=
  [("info_hash", "H"), ("peer_id", "a"), ("port", "6881"), ("downloaded", "7")]

def qsNonCompact : List (String × String) :=
  [("info_hash", "H"), ("peer_id", "a"), ("port", "7000"), ("compact", "0")]

theorem jsIndexOfAux_not_mem (p : Peer) (l : List Peer) (i : Int) (h : p ∉ l) :
    jsIndexOfAux p l i = -1 := by
  induction l generalizing i with
  | nil => rfl
  | cons q rest ih =>
    simp only [List.mem_cons, not_or] at h
    simp only [jsIndexOfAux]
    rw [if_neg (fun hq => h.1 hq.symm)]
    exact ih _ h.2

/-- C10: calling rmPeer with a peer that is not in the (non-empty) peer list is
not a no-op: indexOf yields -1, and splice at -1 deletes the final element. -/
theorem rmPeer_nonmember_removes_last (t : Torrent) (p : Peer)
    (h1 : p ∉ t.peers) (h2 : t.peers ≠ []) :
    (t.rmPeer p).peers = t.peers.dropLast ∧ (t.rmPeer p).peers.length + 1 = t.peers.length := by
  have hlen : 1 ≤ t.peers.length := List.length_pos.mpr h2
  have hidx : jsIndexOf t.peers p = -1 := jsIndexOfAux_not_mem p t.peers 0 h1
  have hpeers : (t.rmPeer p).peers = t.peers.take (t.peers.length - 1) := by
    simp only [Torrent.rmPeer, jsSpliceRemove1, hidx]
    have hact : ((max ((t.peers.length : Int) + -1) 0).toNat) = t.peers.length - 1 := by omega
    rw [if_pos (by omega), hact]
    have hsucc : t.peers.length - 1 + 1 = t.peers.length := by omega
    rw [hsucc, List.drop_length, List.append_nil]
  refine ⟨?_, ?_⟩
  · rw [hpeers, List.dropLast_eq_take]
  · rw [hpeers, List.length_take]; omega

theorem rmPeer_nonmember_removes_last_witness :
    (Torrent.rmPeer { tid := "T", peers := [pA, pB] } pC).peers = [pA, pB].dropLast ∧
    (Torrent.rmPeer { tid := "T", peers := [pA, pB] } pC).peers.length + 1 = [pA, pB].length :=
  rmPeer_nonmember_removes_last { tid := "T", peers := [pA, pB] } pC (by decide) (by decide)

/-- C1: the spec says a scrape never raises and silently omits unknown
infohashes, but the code reads tor.name off null: a scrape request naming an
unknown infohash (here "B", alongside the known "A") throws a TypeError and no
response is produced, so the claim fails on the code. -/
theorem handleScrape_unknown_hash_typeError :
    Tracker.handleScrape { torrents := [torA] } (.inr ["A", "B"]) = .error .typeError := by
  rfl

/-- C3: at now = 5000 s with a 2400 s threshold both peers of the swarm are
stale, yet cleanPeers keeps the second one: removing peers[0] shifts the array
under the advancing index, so the adjacent stale peer is skipped, contradicting
the claim that every stale peer is removed. -/
theorem cleanPeers_skips_adjacent_stale_peer :
    (Torrent.cleanPeers cfg0 5000 { tid := "T", peers := [pA, pB] }).peers = [pB] ∧
    (5000 : Int) - pB.lastActive ≥ cfg0.peerCleanTime * 60 := by
  exact ⟨rfl, by decide⟩

/-- C2 counterexample: announcing event = completed with left = 100 leaves the
peer with status COMPLETED but left = 100, because the completed case falls
through into updateUpDown which overwrites the zero set by setCompleted; the
claimed invariant (COMPLETED implies left = 0) fails on the code. -/
theorem completed_event_left_not_zero :
    ((Tracker.handleAnnounce cfg0 ch0 1000 "9.9.9.9" { torrents := [] } qsCompleted100).1.torrents.map
      (fun t => t.peers.map (fun q => (q.status, q.left)))) =
      [[(PeerStatus.COMPLETED, (some 100 : JSNum))]] ∧
    (some (100 : Int)) ≠ (some 0 : JSNum) := by
  exact ⟨rfl, by decide⟩

/-- C2 amended: after an event = completed announce the peer ends with status
COMPLETED and with left equal to the reported left value (the stats update runs
after setCompleted and overwrites left), so left is 0 only when reported as 0;
setCompleted itself does establish status COMPLETED and left = 0. -/
theorem completed_event_sets_completed_and_reported_left (p : Peer) (up down l : JSNum) :
    ((p.setCompleted).updateUpDown up down l).status = PeerStatus.COMPLETED ∧
    ((p.setCompleted).updateUpDown up down l).left = l ∧
    (p.setCompleted).status = PeerStatus.COMPLETED ∧ (p.setCompleted).left = some 0 := by
  unfold Peer.updateUpDown Peer.setCompleted
  by_cases hl : l = some 0 <;> simp [hl]

/-- C6: the claim says absent or unparsable uploaded/downloaded/left default to
0, but the code runs parseInt with no defaulting: announcing with uploaded and
left absent (and downloaded supplied, which the code never reads because it
parses the misspelled key downloade) leaves the peer with NaN uploaded,
downloaded and left rather than 0. -/
theorem absent_params_yield_nan_not_zero :
    ((Tracker.handleAnnounce cfg0 ch0 1000 "9.9.9.9" { torrents := [] } qsNoNumbers).1.torrents.map
      (fun t => t.peers.map (fun q => (q.uploaded, q.downloaded, q.left)))) =
      [[((none : JSNum), (none : JSNum), (none : JSNum))]] ∧
    (none : JSNum) ≠ some 0 := by
  exact ⟨rfl, by decide⟩

/-- C5: the claim says a compact = "0" announce returns a peers list of
dictionaries, but the response builder references the undeclared identifiers p
and peers inside its loop: as soon as at least one peer is selected (here the
other swarm member pB), the handler throws a ReferenceError instead of
returning a response. -/
theorem uncompactResponse_reference_error :
    (Tracker.handleAnnounce cfg0 ch0 1000 "9.9.9.9"
      { torrents := [{ tid := "H", peers := [pB], name := none }] } qsNonCompact).2 =
      .error .referenceError := by
  rfl

/-- C9: an announce missing info_hash or peer_id, or carrying an invalid port,
returns the tracker state unchanged (no swarm or peer created or modified) and
responds with a bencoded dictionary whose only entry is an error message. -/
theorem announce_validation_error_no_mutation (cfg : Config) (ch : Nat → Nat) (now : Int)
    (remote : String) (tr : Tracker) (qs : List (String × String))
    (h : truthyStr (qsGet qs "info_hash") = false ∨ truthyStr (qsGet qs "peer_id") = false ∨
         invalidPort (jsParseInt (qsGet qs "port")) = true) :
    (Tracker.handleAnnounce cfg ch now remote tr qs).1 = tr ∧
    ∃ msg, (Tracker.handleAnnounce cfg ch now remote tr qs).2 = .ok (errorBytes msg) := by
  by_cases h1 : truthyStr (qsGet qs "info_hash") = true
  · by_cases h2 : truthyStr (qsGet qs "peer_id") = true
    · have h3 : invalidPort (jsParseInt (qsGet qs "port")) = true := by
        rcases h with h | h | h
        · rw [h1] at h; cases h
        · rw [h2] at h; cases h
        · exact h
      refine ⟨?_, "Malformed request; Invalid port", ?_⟩ <;>
        simp [Tracker.handleAnnounce, h1, h2, h3]
    · have h2' : truthyStr (qsGet qs "peer_id") = false := by
        cases hb : truthyStr (qsGet qs "peer_id") with
        | false => rfl
        | true => exact absurd hb h2
      refine ⟨?_, "Malformed request; no peer_id", ?_⟩ <;>
        simp [Tracker.handleAnnounce, h1, h2']
  · have h1' : truthyStr (qsGet qs "info_hash") = false := by
      cases hb : truthyStr (qsGet qs "info_hash") with
      | false => rfl
      | true => exact absurd hb h1
    refine ⟨?_, "Malformed request; no info hash", ?_⟩ <;>
      simp [Tracker.handleAnnounce, h1']

theorem announce_validation_error_no_mutation_witness :
    (Tracker.handleAnnounce cfg0 ch0 0 "9.9.9.9" { torrents := [] } [("info_hash", "H")]).1 =
      { torrents := [] } ∧
    ∃ msg, (Tracker.handleAnnounce cfg0 ch0 0 "9.9.9.9" { torrents := [] } [("info_hash", "H")]).2 =
      .ok (errorBytes msg) :=
  announce_validation_error_no_mutation cfg0 ch0 0 "9.9.9.9" { torrents := [] }
    [("info_hash", "H")] (Or.inr (Or.inl (by decide)))

theorem filter_and_partition (l : List Peer) (f g : Peer → Bool) :
    (l.filter (fun x => f x && g x)).length + (l.filter (fun x => !(f x) && g x)).length =
    (l.filter g).length := by
  induction l with
  | nil => rfl
  | cons x t ih =>
    cases hf : f x <;> cases hg : g x <;> simp [List.filter_cons, hf, hg] <;> omega

theorem get_cons_eraseIdx_perm (l : List Peer) (i : Nat) (h : i < l.length) :
    List.Perm (l.get ⟨i, h⟩ :: l.eraseIdx i) l := by
  induction l generalizing i with
  | nil => exact absurd h (by simp)
  | cons a t ih =>
    cases i with
    | zero => exact List.Perm.refl _
    | succ j =>
      have hj : j < t.length := by simpa using h
      exact (List.Perm.swap a (t.get ⟨j, hj⟩) (t.eraseIdx j)).trans ((ih j hj).cons a)

theorem selectLoopF_decomp (ch : Nat → Nat) (nw : JSNum) :
    ∀ (fuel : Nat) (pool : List Peer) (k : Nat) (ret : List Peer), pool.length ≤ fuel →
    ∃ taken, (selectLoopF ch nw fuel k pool ret).2 = ret ++ taken ∧ taken.Subperm pool := by
  intro fuel
  induction fuel with
  | zero =>
    intro pool k ret hle
    have hp : pool = [] := List.length_eq_zero.mp (by omega)
    subst hp
    exact ⟨[], by simp [selectLoopF], List.nil_subperm⟩
  | succ f ih =>
    intro pool k ret hle
    by_cases hc : 0 < pool.length ∧ jsLeNat ret.length nw = true
    · have hilt : ch k % pool.length < pool.length := Nat.mod_lt _ hc.1
      have hlen : (pool.eraseIdx (ch k % pool.length)).length ≤ f := by
        have := List.length_eraseIdx_add_one hilt
        omega
      obtain ⟨tk, htk, hsub⟩ :=
        ih (pool.eraseIdx (ch k % pool.length)) (k + 1)
          (ret ++ [pool.get ⟨ch k % pool.length, hilt⟩]) hlen
      refine ⟨pool.get ⟨ch k % pool.length, hilt⟩ :: tk, ?_, ?_⟩
      · simp only [selectLoopF, dif_pos hc]
        rw [htk, List.append_assoc]
        simp
      · exact ((List.subperm_cons _).mpr hsub).trans
          (get_cons_eraseIdx_perm pool (ch k % pool.length) hilt).subperm
    · exact ⟨[], by simp [selectLoopF, dif_neg hc], List.nil_subperm⟩

theorem selectLoopF_length (ch : Nat → Nat) (w : Nat) :
    ∀ (fuel : Nat) (pool : List Peer) (k : Nat) (ret : List Peer),
    pool.length ≤ fuel → ret.length ≤ w + 1 →
    ((selectLoopF ch (some (w : Int)) fuel k pool ret).2).length =
      min (w + 1) (ret.length + pool.length) := by
  intro fuel
  induction fuel with
  | zero =>
    intro pool k ret h1 h2
    have hp : pool = [] := List.length_eq_zero.mp (by omega)
    subst hp
    simp [selectLoopF]
    omega
  | succ f ih =>
    intro pool k ret h1 h2
    by_cases hc : 0 < pool.length ∧ jsLeNat ret.length (some (w : Int)) = true
    · have hilt : ch k % pool.length < pool.length := Nat.mod_lt _ hc.1
      have hret : ret.length ≤ w := by
        have := hc.2
        simp only [jsLeNat, decide_eq_true_eq] at this
        omega
      have herase := List.length_eraseIdx_add_one hilt
      have hrec := ih (pool.eraseIdx (ch k % pool.length)) (k + 1)
        (ret ++ [pool.get ⟨ch k % pool.length, hilt⟩]) (by omega)
        (by simp; omega)
      simp only [selectLoopF, dif_pos hc]
      rw [hrec]
      simp only [List.length_append, List.length_cons, List.length_nil]
      omega
    · have hres : (selectLoopF ch (some (w : Int)) (f + 1) k pool ret).2 = ret := by
        simp [selectLoopF, dif_neg hc]
      rw [hres]
      rcases Decidable.em (0 < pool.length) with hp | hp
      · have hfalse : jsLeNat ret.length (some (w : Int)) = false := by
          cases hb : jsLeNat ret.length (some (w : Int)) with
          | false => rfl
          | true => exact absurd ⟨hp, hb⟩ hc
        simp only [jsLeNat, decide_eq_false_iff_not] at hfalse
        omega
      · have hp0 : pool.length = 0 := by omega
        omega

/-- C4: for every swarm, requesting peer, numWant and random choice sequence,
the announce peer selection returns min(numWant + 1, number of candidates)
peers, where the candidates are all swarm peers except the requester; the
requester is never selected, all selected seeds precede all selected leechers,
and each group is drawn without replacement (the selected seeds are a
sub-permutation of the seed pool and likewise for leechers). -/
theorem getLeecherPeers_selection_spec (t : Torrent) (ch : Nat → Nat) (p : Peer) (w : Nat) :
    (t.getLeecherPeers ch p (some (w : Int))).length =
      min (w + 1) ((t.getSeeds (some p)).length + (t.getLeechers (some p)).length) ∧
    (t.getSeeds (some p)).length + (t.getLeechers (some p)).length =
      (t.peers.filter (fun q => !(decide (q = p)))).length ∧
    p ∉ t.getLeecherPeers ch p (some (w : Int)) ∧
    ∃ a b, t.getLeecherPeers ch p (some (w : Int)) = a ++ b ∧
      a.Subperm (t.getSeeds (some p)) ∧ b.Subperm (t.getLeechers (some p)) := by
  have hseeds_ne : ∀ x ∈ t.getSeeds (some p), x ≠ p := by
    intro x hx
    have hx2 := (List.mem_filter.mp hx).2
    simp only [excludedPeer, Bool.and_eq_true, Bool.not_eq_true', decide_eq_false_iff_not] at hx2
    exact hx2.2
  have hleech_ne : ∀ x ∈ t.getLeechers (some p), x ≠ p := by
    intro x hx
    have hx2 := (List.mem_filter.mp hx).2
    simp only [excludedPeer, Bool.and_eq_true, Bool.not_eq_true', decide_eq_false_iff_not] at hx2
    exact hx2.2
  obtain ⟨a, ha, hasub⟩ := selectLoopF_decomp ch (some (w : Int))
    (t.getSeeds (some p)).length (t.getSeeds (some p)) 0 [] le_rfl
  obtain ⟨b, hb, hbsub⟩ := selectLoopF_decomp ch (some (w : Int))
    (t.getLeechers (some p)).length (t.getLeechers (some p))
    (selectLoopF ch (some (w : Int)) (t.getSeeds (some p)).length 0 (t.getSeeds (some p)) []).1
    (selectLoopF ch (some (w : Int)) (t.getSeeds (some p)).length 0 (t.getSeeds (some p)) []).2
    le_rfl
  have hl1 := selectLoopF_length ch w (t.getSeeds (some p)).length (t.getSeeds (some p)) 0 []
    le_rfl (by simp)
  have hl1' : (selectLoopF ch (some (w : Int)) (t.getSeeds (some p)).length 0
      (t.getSeeds (some p)) []).2.length ≤ w + 1 := by
    rw [hl1]; omega
  have hl2 := selectLoopF_length ch w (t.getLeechers (some p)).length (t.getLeechers (some p))
    (selectLoopF ch (some (w : Int)) (t.getSeeds (some p)).length 0 (t.getSeeds (some p)) []).1
    (selectLoopF ch (some (w : Int)) (t.getSeeds (some p)).length 0 (t.getSeeds (some p)) []).2
    le_rfl hl1'
  refine ⟨?_, ?_, ?_, a, b, ?_, hasub, hbsub⟩
  · simp only [Torrent.getLeecherPeers]
    rw [hl2, hl1]
    simp only [List.length_nil]
    omega
  · have hpart := filter_and_partition t.peers
      (fun q => decide (q.status = PeerStatus.COMPLETED)) (fun q => !(decide (q = p)))
    simpa only [Torrent.getSeeds, Torrent.getLeechers, excludedPeer] using hpart
  · simp only [Torrent.getLeecherPeers]
    intro hmem
    rw [hb] at hmem
    rcases List.mem_append.mp hmem with hm | hm
    · rw [ha] at hm
      simp only [List.nil_append] at hm
      exact hseeds_ne p (hasub.subset hm) rfl
    · exact hleech_ne p (hbsub.subset hm) rfl
  · simp only [Torrent.getLeecherPeers]
    rw [hb, ha]
    simp

/-- C7: every announce response carries interval = announceTime minutes times
60, and complete/incomplete are the seed and leecher counts over the whole
swarm, with no peer excluded (getSeeds and getLeechers are called with no
exclusion argument); this holds for the compact builder always and for the
non-compact builder whenever it returns a response. -/
theorem response_counts_and_interval (cfg : Config) (ch : Nat → Nat) (t : Torrent)
    (p : Peer) (nw : JSNum) :
    (t.compactResponse cfg ch p nw).interval = cfg.announceTime * 60 ∧
    (t.compactResponse cfg ch p nw).complete =
      (t.peers.filter (fun q => decide (q.status = PeerStatus.COMPLETED))).length ∧
    (t.compactResponse cfg ch p nw).incomplete =
      (t.peers.filter (fun q => !(decide (q.status = PeerStatus.COMPLETED)))).length ∧
    ∀ r, t.uncompactResponse cfg ch p nw = .ok r →
      r.interval = cfg.announceTime * 60 ∧
      r.complete = (t.peers.filter (fun q => decide (q.status = PeerStatus.COMPLETED))).length ∧
      r.incomplete = (t.peers.filter (fun q => !(decide (q.status = PeerStatus.COMPLETED)))).length := by
  have hs : t.getSeeds none = t.peers.filter (fun q => decide (q.status = PeerStatus.COMPLETED)) := by
    simp [Torrent.getSeeds, excludedPeer]
  have hl : t.getLeechers none =
      t.peers.filter (fun q => !(decide (q.status = PeerStatus.COMPLETED))) := by
    simp [Torrent.getLeechers, excludedPeer]
  refine ⟨rfl, ?_, ?_, ?_⟩
  · simp only [Torrent.compactResponse]
    rw [hs]
  · simp only [Torrent.compactResponse]
    rw [hl]
  · intro r hr
    by_cases he : (t.getLeecherPeers ch p nw).isEmpty = true
    · simp only [Torrent.uncompactResponse, he, if_true] at hr
      have hr' := hr
      cases hr'
      exact ⟨rfl, by simp [hs], by simp [hl]⟩
    · have he' : (t.getLeecherPeers ch p nw).isEmpty = false := by
        cases hb : (t.getLeecherPeers ch p nw).isEmpty with
        | false => rfl
        | true => exact absurd hb he
      simp only [Torrent.uncompactResponse, he', if_false] at hr
      exact Except.noConfusion hr

theorem response_counts_and_interval_witness :
    (Torrent.compactResponse cfg0 ch0 torW pS (some 30)).interval = cfg0.announceTime * 60 ∧
    (respW.interval = cfg0.announceTime * 60 ∧
     respW.complete = (torW.peers.filter (fun q => decide (q.status = PeerStatus.COMPLETED))).length ∧
     respW.incomplete = (torW.peers.filter (fun q => !(decide (q.status = PeerStatus.COMPLETED)))).length) :=
  ⟨(response_counts_and_interval cfg0 ch0 torW pS (some 30)).1,
   (response_counts_and_interval cfg0 ch0 torW pS (some 30)).2.2.2 respW rfl⟩

theorem hexCharVal_toHexDigitChar (d : Nat) (h : d < 16) :
    hexCharVal (toHexDigitChar d) = some d := by
  interval_cases d <;> decide

theorem natToHexAux_small (fuel n : Nat) (acc : List Char) (h : n < 16) :
    natToHexAux fuel n acc = toHexDigitChar n :: acc := by
  cases fuel with
  | zero => simp [natToHexAux, Nat.mod_eq_of_lt h]
  | succ f => simp [natToHexAux, h]

theorem natToHexAux_big (fuel n : Nat) (acc : List Char) (h : 16 ≤ n) :
    natToHexAux (fuel + 1) n acc = natToHexAux fuel (n / 16) (toHexDigitChar (n % 16) :: acc) := by
  simp [natToHexAux, Nat.not_lt.mpr h]

theorem natToHexChars_len1 (n : Nat) (h : n < 16) : natToHexChars n = [toHexDigitChar n] := by
  unfold natToHexChars
  exact natToHexAux_small n n [] h

theorem natToHexChars_len2 (n : Nat) (h1 : 16 ≤ n) (h2 : n < 256) :
    natToHexChars n = [toHexDigitChar (n / 16), toHexDigitChar (n % 16)] := by
  unfold natToHexChars
  obtain ⟨m, rfl⟩ : ∃ m, n = m + 1 := ⟨n - 1, by omega⟩
  rw [natToHexAux_big m (m + 1) [] h1]
  exact natToHexAux_small m ((m + 1) / 16) _ (by omega)

theorem natToHexChars_len3 (n : Nat) (h1 : 256 ≤ n) (h2 : n < 4096) :
    natToHexChars n =
      [toHexDigitChar (n / 256), toHexDigitChar (n / 16 % 16), toHexDigitChar (n % 16)] := by
  unfold natToHexChars
  obtain ⟨m, rfl⟩ : ∃ m, n = m + 1 := ⟨n - 1, by omega⟩
  rw [natToHexAux_big m (m + 1) [] (by omega)]
  obtain ⟨m2, rfl⟩ : ∃ m2, m = m2 + 1 := ⟨m - 1, by omega⟩
  rw [natToHexAux_big m2 ((m2 + 1 + 1) / 16) _ (by omega)]
  have hdd : (m2 + 1 + 1) / 16 / 16 = (m2 + 1 + 1) / 256 := by
    rw [Nat.div_div_eq_div_mul]
  rw [hdd]
  exact natToHexAux_small m2 ((m2 + 1 + 1) / 256) _ (by omega)

theorem natToHexChars_len4 (n : Nat) (h1 : 4096 ≤ n) (h2 : n < 65536) :
    natToHexChars n =
      [toHexDigitChar (n / 4096), toHexDigitChar (n / 256 % 16),
       toHexDigitChar (n / 16 % 16), toHexDigitChar (n % 16)] := by
  unfold natToHexChars
  obtain ⟨m, rfl⟩ : ∃ m, n = m + 1 := ⟨n - 1, by omega⟩
  rw [natToHexAux_big m (m + 1) [] (by omega)]
  obtain ⟨m2, rfl⟩ : ∃ m2, m = m2 + 1 := ⟨m - 1, by omega⟩
  rw [natToHexAux_big m2 ((m2 + 1 + 1) / 16) _ (by omega)]
  have hdd : (m2 + 1 + 1) / 16 / 16 = (m2 + 1 + 1) / 256 := by
    rw [Nat.div_div_eq_div_mul]
  rw [hdd]
  obtain ⟨m3, rfl⟩ : ∃ m3, m2 = m3 + 1 := ⟨m2 - 1, by omega⟩
  rw [natToHexAux_big m3 ((m3 + 1 + 1 + 1) / 256) _ (by omega)]
  have hdd2 : (m3 + 1 + 1 + 1) / 256 / 16 = (m3 + 1 + 1 + 1) / 4096 := by
    rw [Nat.div_div_eq_div_mul]
  rw [hdd2]
  exact natToHexAux_small m3 ((m3 + 1 + 1 + 1) / 4096) _ (by omega)

theorem bufferFromHex_pair (c1 c2 : Char) (rest : List Char) (a b : Nat)
    (h1 : hexCharVal c1 = some a) (h2 : hexCharVal c2 = some b) :
    bufferFromHex (c1 :: c2 :: rest) = (16 * a + b) :: bufferFromHex rest := by
  simp only [bufferFromHex, h1, h2]

theorem octet_pad_bytes (n : Nat) (h : n ≤ 255) (rest : List Char) :
    bufferFromHex (padOct (natToHexChars n) ++ rest) = n :: bufferFromHex rest ∧
    (padOct (natToHexChars n)).length = 2 := by
  by_cases hs : n < 16
  · rw [natToHexChars_len1 n hs]
    have hpad : padOct [toHexDigitChar n] = ['0', toHexDigitChar n] := by simp [padOct]
    rw [hpad]
    refine ⟨?_, rfl⟩
    have hp := bufferFromHex_pair '0' (toHexDigitChar n) rest 0 n (by decide)
      (hexCharVal_toHexDigitChar n hs)
    simpa using hp
  · have h16 : 16 ≤ n := by omega
    rw [natToHexChars_len2 n h16 (by omega)]
    have hpad : padOct [toHexDigitChar (n / 16), toHexDigitChar (n % 16)] =
        [toHexDigitChar (n / 16), toHexDigitChar (n % 16)] := by simp [padOct]
    rw [hpad]
    refine ⟨?_, rfl⟩
    have hp := bufferFromHex_pair (toHexDigitChar (n / 16)) (toHexDigitChar (n % 16)) rest
      (n / 16) (n % 16) (hexCharVal_toHexDigitChar _ (by omega)) (hexCharVal_toHexDigitChar _ (by omega))
    show bufferFromHex (toHexDigitChar (n / 16) :: toHexDigitChar (n % 16) :: rest) =
      n :: bufferFromHex rest
    rw [hp, Nat.div_add_mod]

theorem port_pad_bytes (n : Nat) (h : n ≤ 65535) (rest : List Char) :
    bufferFromHex ((List.replicate (4 - (natToHexChars n).length) '0' ++ natToHexChars n) ++ rest) =
      n / 256 :: n % 256 :: bufferFromHex rest ∧
    (List.replicate (4 - (natToHexChars n).length) '0' ++ natToHexChars n).length = 4 := by
  by_cases hc1 : n < 16
  · rw [natToHexChars_len1 n hc1]
    refine ⟨?_, rfl⟩
    show bufferFromHex ('0' :: '0' :: '0' :: toHexDigitChar n :: rest) = _
    rw [bufferFromHex_pair _ _ _ 0 0 (by decide) (by decide)]
    rw [bufferFromHex_pair _ _ _ 0 n (by decide) (hexCharVal_toHexDigitChar n hc1)]
    simp only [List.cons.injEq]
    exact ⟨by omega, by omega, trivial⟩
  · by_cases hc2 : n < 256
    · rw [natToHexChars_len2 n (by omega) hc2]
      refine ⟨?_, rfl⟩
      show bufferFromHex ('0' :: '0' :: toHexDigitChar (n / 16) :: toHexDigitChar (n % 16) :: rest) = _
      rw [bufferFromHex_pair _ _ _ 0 0 (by decide) (by decide)]
      rw [bufferFromHex_pair _ _ _ (n / 16) (n % 16)
        (hexCharVal_toHexDigitChar _ (by omega)) (hexCharVal_toHexDigitChar _ (by omega))]
      simp only [List.cons.injEq]
      exact ⟨by omega, by omega, trivial⟩
    · by_cases hc3 : n < 4096
      · rw [natToHexChars_len3 n (by omega) hc3]
        refine ⟨?_, rfl⟩
        show bufferFromHex ('0' :: toHexDigitChar (n / 256) :: toHexDigitChar (n / 16 % 16) ::
          toHexDigitChar (n % 16) :: rest) = _
        rw [bufferFromHex_pair _ _ _ 0 (n / 256) (by decide)
          (hexCharVal_toHexDigitChar _ (by omega))]
        rw [bufferFromHex_pair _ _ _ (n / 16 % 16) (n % 16)
          (hexCharVal_toHexDigitChar _ (by omega)) (hexCharVal_toHexDigitChar _ (by omega))]
        simp only [List.cons.injEq]
        exact ⟨by omega, by omega, trivial⟩
      · rw [natToHexChars_len4 n (by omega) (by omega)]
        refine ⟨?_, rfl⟩
        show bufferFromHex (toHexDigitChar (n / 4096) :: toHexDigitChar (n / 256 % 16) ::
          toHexDigitChar (n / 16 % 16) :: toHexDigitChar (n % 16) :: rest) = _
        rw [bufferFromHex_pair _ _ _ (n / 4096) (n / 256 % 16)
          (hexCharVal_toHexDigitChar _ (by omega)) (hexCharVal_toHexDigitChar _ (by omega))]
        rw [bufferFromHex_pair _ _ _ (n / 16 % 16) (n % 16)
          (hexCharVal_toHexDigitChar _ (by omega)) (hexCharVal_toHexDigitChar _ (by omega))]
        simp only [List.cons.injEq]
        exact ⟨by omega, by omega, trivial⟩

theorem octHexChars_bytes (o : Option String) (v : Int) (ho : jsParseInt o = some v)
    (h0 : 0 ≤ v) (h255 : v ≤ 255) (rest : List Char) :
    bufferFromHex (octHexChars o ++ rest) = v.toNat :: bufferFromHex rest := by
  unfold octHexChars
  rw [ho]
  have hjs : jsNumToHexChars (some v) = natToHexChars v.toNat := by
    simp only [jsNumToHexChars]
    rw [if_neg (by omega)]
  rw [hjs]
  exact (octet_pad_bytes v.toNat (by omega) rest).1

theorem octHexChars_length (o : Option String) (v : Int) (ho : jsParseInt o = some v)
    (h0 : 0 ≤ v) (h255 : v ≤ 255) :
    (octHexChars o).length = 2 := by
  unfold octHexChars
  rw [ho]
  have hjs : jsNumToHexChars (some v) = natToHexChars v.toNat := by
    simp only [jsNumToHexChars]
    rw [if_neg (by omega)]
  rw [hjs]
  exact (octet_pad_bytes v.toNat (by omega) []).2

theorem portHexChars_bytes (v : Int) (h0 : 0 ≤ v) (hm : v ≤ 65535) (rest : List Char) :
    bufferFromHex (portHexChars (some v) ++ rest) =
      v.toNat / 256 :: v.toNat % 256 :: bufferFromHex rest := by
  have hjs : jsNumToHexChars (some v) = natToHexChars v.toNat := by
    simp only [jsNumToHexChars]
    rw [if_neg (by omega)]
  simp only [portHexChars]
  rw [hjs]
  exact (port_pad_bytes v.toNat (by omega) rest).1

theorem octet_ok_of_valid (o : JSNum)
    (h : (match o with | some v => decide (0 ≤ v) && decide (v ≤ 255) | none => false) = true) :
    ∃ v : Int, o = some v ∧ 0 ≤ v ∧ v ≤ 255 := by
  cases o with
  | none => exact absurd h (by simp)
  | some v =>
    simp only [Bool.and_eq_true, decide_eq_true_eq] at h
    exact ⟨v, rfl, h.1, h.2⟩

theorem port_ok_of_valid (o : JSNum)
    (h : (match o with | some v => decide (0 ≤ v) && decide (v ≤ 65535) | none => false) = true) :
    ∃ v : Int, o = some v ∧ 0 ≤ v ∧ v ≤ 65535 := by
  cases o with
  | none => exact absurd h (by simp)
  | some v =>
    simp only [Bool.and_eq_true, decide_eq_true_eq] at h
    exact ⟨v, rfl, h.1, h.2⟩

theorem peerHexChars_bytes (q : Peer) (h : validNetB q = true) (rest : List Char) :
    bufferFromHex (peerHexChars q ++ rest) = peerSix q ++ bufferFromHex rest := by
  have hr4 : List.range 4 = [0, 1, 2, 3] := rfl
  simp only [validNetB, hr4, List.all_cons, List.all_nil, Bool.and_eq_true, Bool.and_true] at h
  obtain ⟨⟨h0, h1, h2, h3⟩, hp⟩ := h
  obtain ⟨v0, hv0, hv0a, hv0b⟩ := octet_ok_of_valid _ h0
  obtain ⟨v1, hv1, hv1a, hv1b⟩ := octet_ok_of_valid _ h1
  obtain ⟨v2, hv2, hv2a, hv2b⟩ := octet_ok_of_valid _ h2
  obtain ⟨v3, hv3, hv3a, hv3b⟩ := octet_ok_of_valid _ h3
  obtain ⟨pv, hpv, hpva, hpvb⟩ := port_ok_of_valid _ hp
  have hmap : (List.range 4).map (fun j => octHexChars ((jsSplitDot q.ip)[j]?)) =
      [octHexChars ((jsSplitDot q.ip)[0]?), octHexChars ((jsSplitDot q.ip)[1]?),
       octHexChars ((jsSplitDot q.ip)[2]?), octHexChars ((jsSplitDot q.ip)[3]?)] := rfl
  have hnorm : peerHexChars q ++ rest =
      octHexChars ((jsSplitDot q.ip)[0]?) ++ (octHexChars ((jsSplitDot q.ip)[1]?) ++
      (octHexChars ((jsSplitDot q.ip)[2]?) ++ (octHexChars ((jsSplitDot q.ip)[3]?) ++
      (portHexChars q.port ++ rest)))) := by
    simp [peerHexChars, hmap, List.append_assoc]
  rw [hnorm]
  rw [octHexChars_bytes _ v0 hv0 hv0a hv0b]
  rw [octHexChars_bytes _ v1 hv1 hv1a hv1b]
  rw [octHexChars_bytes _ v2 hv2 hv2a hv2b]
  rw [octHexChars_bytes _ v3 hv3 hv3a hv3b]
  rw [hpv, portHexChars_bytes pv hpva hpvb rest]
  simp [peerSix, hr4, hv0, hv1, hv2, hv3, hpv]

theorem flatten_peerSix_length (l : List Peer) :
    ((l.map peerSix).flatten).length = 6 * l.length := by
  induction l with
  | nil => rfl
  | cons q t ih =>
    simp only [List.map_cons, List.flatten_cons, List.length_append, ih, List.length_cons]
    have h6 : (peerSix q).length = 6 := by simp [peerSix]
    omega

theorem compact_buffer (l : List Peer) (h : ∀ q ∈ l, validNetB q = true) :
    bufferFromHex ((l.map peerHexChars).flatten) = (l.map peerSix).flatten := by
  induction l with
  | nil => rfl
  | cons q t ih =>
    simp only [List.map_cons, List.flatten_cons]
    rw [peerHexChars_bytes q (h q (List.mem_cons_self q t)) ((t.map peerHexChars).flatten)]
    rw [ih (fun x hx => h x (List.mem_cons_of_mem q hx))]

/-- C8: assuming every selected peer has a dotted-quad IPv4 ip (four parts each
parsing to an octet in [0, 255]) and a port in [0, 65535], the compact peers
field is the byte string that concatenates, per selected peer in selection
order, the 4 big-endian IPv4 octets followed by the 2-byte big-endian port, and
its length is exactly 6 times the number of selected peers. -/
theorem compactResponse_packs_six_bytes_per_peer (cfg : Config) (ch : Nat → Nat)
    (t : Torrent) (p : Peer) (nw : JSNum)
    (h : ∀ q ∈ t.getLeecherPeers ch p nw, validNetB q = true) :
    (t.compactResponse cfg ch p nw).peers =
      .compactBytes (((t.getLeecherPeers ch p nw).map peerSix).flatten) ∧
    (((t.getLeecherPeers ch p nw).map peerSix).flatten).length =
      6 * (t.getLeecherPeers ch p nw).length := by
  refine ⟨?_, flatten_peerSix_length _⟩
  simp only [Torrent.compactResponse]
  rw [compact_buffer _ h]

theorem compactResponse_packs_six_bytes_per_peer_witness :
    (Torrent.compactResponse cfg0 ch0 torX pA (some 30)).peers =
      .compactBytes (((Torrent.getLeecherPeers torX ch0 pA (some 30)).map peerSix).flatten) ∧
    (((Torrent.getLeecherPeers torX ch0 pA (some 30)).map peerSix).flatten).length =
      6 * (Torrent.getLeecherPeers torX ch0 pA (some 30)).length :=
  compactResponse_packs_six_bytes_per_peer cfg0 ch0 torX pA (some 30) (by decide)
